import Mathlib

/-!
Verification of the PID regulator core of `pid-graph`.

Shallow embedding of `src/pid_controller.py` (class `PIDController`) and of
the real-time driving loop / metrics extractor of `src/window.py`
(`DarkModeWindow.update_real_time`, `DarkModeWindow.update_metrics`).

Python floats are embedded as rationals (`ℚ`); Python exceptions
(`ZeroDivisionError`, `AttributeError`, `ValueError`) are embedded with an
explicit `Except` error type, raised exactly where the source raises.
-/

namespace PID

/-- Python exceptions that the embedded code can raise. -/
inductive PyErr where
  | zeroDivision
  | attributeError
  | valueError
deriving DecidableEq, Repr

/-- The constructor parameters stored by `PIDController.__init__`
(`pid_controller.py` lines 38-47).  `output_limits` is the tuple
`(min_output, max_output)` destructured inside `update`. -/
structure Config where
  kp : ℚ
  ki : ℚ
  kd : ℚ
  setpoint : ℚ
  output_limits : ℚ × ℚ
  sample_time : ℚ
  omega_n : ℚ
  damping_ratio : ℚ
  derivative_filter : ℚ
deriving DecidableEq, Repr

/-- The mutable attributes of a `PIDController` instance.
`last_derivative` models `self._last_derivative`, an attribute that the
source only creates inside `update` (line 94): it is `none` while the
attribute does not exist, and reading it then is an `AttributeError`. -/
structure State where
  integral : ℚ
  last_output : ℚ
  last_input : Option ℚ
  last_derivative : Option ℚ
deriving DecidableEq, Repr

/-- Mutable state set up by `__init__` (lines 49-51): `_integral = 0`,
`_last_output = 0`, `_last_input = None`; `_last_derivative` not yet created. -/
def initState : State := ⟨0, 0, none, none⟩

/-- `PIDController.__init__` (lines 12-51): stores every parameter without
any validation and initialises the mutable attributes.  No code path raises. -/
def pidInit (kp ki kd setpoint : ℚ) (output_limits : ℚ × ℚ)
    (sample_time omega_n damping_ratio derivative_filter : ℚ) :
    Config × State :=
  (⟨kp, ki, kd, setpoint, output_limits, sample_time, omega_n, damping_ratio,
    derivative_filter⟩, initState)

/-- `PIDController.reset` (lines 53-59): zeroes `_integral` and
`_last_output` and unsets `_last_input`; it does not touch
`_last_derivative`. -/
def resetState (s : State) : State := ⟨0, 0, none, s.last_derivative⟩

/-- The `if x > hi ... elif x < lo ...` clamp used at lines 78-81
(integral anti-windup) and lines 101-104 (output clamp). -/
def pyClamp (lo hi x : ℚ) : ℚ :=
  if x > hi then hi else if x < lo then lo else x

/-- `PIDController.update` (lines 61-107).  Returns the instance state as
left after the call (on an exception the integral has already been mutated,
lines 74-81 precede the raising lines 87/91) together with either the
returned output or the raised exception. -/
def update (c : Config) (s : State) (m : ℚ) : State × Except PyErr ℚ :=
  let err := c.setpoint - m
  let proportional := c.kp * err
  let min_output := c.output_limits.1
  let max_output := c.output_limits.2
  let integral := pyClamp min_output max_output
    (s.integral + c.ki * err * c.sample_time)
  let deriv : Except PyErr ℚ :=
    match s.last_input with
    | none => .ok 0
    | some li =>
      if c.sample_time = 0 then .error .zeroDivision
      else
        let raw := -(m - li) / c.sample_time
        if c.derivative_filter > 0 then
          match s.last_derivative with
          | none => .error .attributeError
          | some ld =>
            .ok (c.derivative_filter * raw + (1 - c.derivative_filter) * ld)
        else .ok raw
  match deriv with
  | .error e => (⟨integral, s.last_output, s.last_input, s.last_derivative⟩, .error e)
  | .ok derivative =>
    let output := pyClamp min_output max_output
      (proportional + integral + c.kd * derivative)
    (⟨integral, output, some m, some derivative⟩, .ok output)

/-- State left behind by a call to `update` (discarding the result). -/
def updateSt (c : Config) (s : State) (m : ℚ) : State := (update c s m).1

/-- Python `int(q)`: truncation toward zero. -/
def pyInt (q : ℚ) : ℤ := if 0 ≤ q then ⌊q⌋ else ⌈q⌉

/-- Models `np.random.normal(0, std)` at the `k`-th draw of the process:
a negative scale raises `ValueError`, scale `0` returns the mean (here `0`)
exactly, and a positive scale yields the next value of the global RNG
stream, modelled as an oracle `g` indexed by draw count. -/
def normalDraw (g : ℕ → ℚ) (std : ℚ) (k : ℕ) : Except PyErr ℚ :=
  if std < 0 then .error .valueError
  else if std = 0 then .ok 0
  else .ok (g k)

/-- The first-order process model step of `simulate` (lines 160-163):
`tau = 1 / omega_n` (a `ZeroDivisionError` when `omega_n = 0`), then
`current_value += (output - current_value) / tau * sample_time`. -/
def firstOrderNext (c : Config) (cv output : ℚ) : Except PyErr ℚ :=
  if c.omega_n = 0 then .error .zeroDivision
  else
    let tau := 1 / c.omega_n
    .ok (cv + (output - cv) / tau * c.sample_time)

/-- The second-order process model step of `simulate` (lines 153-159):
returns the new `(current_value, velocity)`. -/
def secondOrderNext (c : Config) (cv vel output : ℚ) : ℚ × ℚ :=
  let acceleration := c.omega_n ^ 2 * (output - cv)
    - 2 * c.damping_ratio * c.omega_n * vel
  let vel' := vel + acceleration * c.sample_time
  (cv + vel' * c.sample_time, vel')

/-- One iteration of the `for step in range(num_steps)` loop of `simulate`
(lines 138-174), without the two appends: from the current
`(current_value, velocity)` pair and controller state it produces the
controller state left behind and, unless an exception was raised, the new
`(current_value, velocity)` pair — the new `current_value` is also the
sample appended for this step. -/
def simStep (c : Config) (g : ℕ → ℚ)
    (simulation_time disturbance noise_std : ℚ) (model_type : String)
    (step : ℕ) (cv vel : ℚ) (pid : State) : State × Except PyErr (ℚ × ℚ) :=
  match normalDraw g noise_std step with
  | .error e => (pid, .error e)
  | .ok noise =>
    let measurement := cv + noise
    match update c pid measurement with
    | (pid', .error e) => (pid', .error e)
    | (pid', .ok output) =>
      let current_time := (step : ℚ) * c.sample_time
      let disturbance_value :=
        if current_time ≥ simulation_time / 2 then disturbance else 0
      let next : Except PyErr (ℚ × ℚ) :=
        if model_type = "second_order" then
          .ok (secondOrderNext c cv vel output)
        else if model_type = "first_order" then
          (firstOrderNext c cv output).map (fun cv2 => (cv2, vel))
        else .error .valueError
      match next with
      | .error e => (pid', .error e)
      | .ok (cv2, vel') =>
        let cv3 := cv2 + disturbance_value * c.sample_time
        let cv4 := max 0 (min cv3 (max c.output_limits.1 c.output_limits.2))
        (pid', .ok (cv4, vel'))

/-- The whole loop of `simulate`: `fuel` remaining iterations, starting at
index `step`.  An exception mid-loop discards the accumulated lists, as in
the source where the exception propagates out of `simulate`. -/
def simLoop (c : Config) (g : ℕ → ℚ)
    (simulation_time disturbance noise_std : ℚ) (model_type : String) :
    ℕ → ℕ → ℚ → ℚ → State → State × Except PyErr (List ℚ × List ℚ)
  | 0, _, _, _, pid => (pid, .ok ([], []))
  | fuel + 1, step, cv, vel, pid =>
    match simStep c g simulation_time disturbance noise_std model_type
        step cv vel pid with
    | (pid', .error e) => (pid', .error e)
    | (pid', .ok (cv', vel')) =>
      match simLoop c g simulation_time disturbance noise_std model_type
          fuel (step + 1) cv' vel' pid' with
      | (pidF, .error e) => (pidF, .error e)
      | (pidF, .ok (ts, vs)) =>
        (pidF, .ok (((step : ℚ) * c.sample_time) :: ts, cv' :: vs))

/-- `PIDController.simulate` (lines 109-176): computes
`num_steps = int(simulation_time / sample_time)` — a `ZeroDivisionError`
when `sample_time = 0` — then runs the loop.  Returns the controller state
left behind together with the `(time_steps, output_values)` lists or the
raised exception. -/
def simulate (c : Config) (s : State)
    (simulation_time initial_value initial_velocity disturbance noise_std : ℚ)
    (model_type : String) (g : ℕ → ℚ) :
    State × Except PyErr (List ℚ × List ℚ) :=
  if c.sample_time = 0 then (s, .error .zeroDivision)
  else
    let num_steps := (pyInt (simulation_time / c.sample_time)).toNat
    simLoop c g simulation_time disturbance noise_std model_type
      num_steps 0 initial_value initial_velocity s

/-- The state owned by `DarkModeWindow` that `update_real_time` reads and
writes: `self.current_value`, `self.velocity`, `self.time_data`,
`self.output_data` and the shared `PIDController` instance.  On the first
tick the source lazily initialises `current_value = 60.0` and
`velocity = 0.0` (lines 418-421); a run therefore starts from
`⟨60, 0, [], [], s⟩`. -/
structure RTState where
  current_value : ℚ
  velocity : ℚ
  time_data : List ℚ
  output_data : List ℚ
  pid : State
deriving DecidableEq, Repr

/-- One call of `DarkModeWindow.update_real_time` (`window.py` lines
416-463, plotting calls omitted).  `disturbance` and `noise_std` stand for
the slider readings of lines 424-425 and `model_type` for the combo-box
reading of line 428 (so it is one of `"second_order"`/`"first_order"`).
The disturbance switches on once `len(time_data) * sample_time >= 5.0`
(line 436) and the process value is clamped to the literal bounds `0` and
`400` (line 458). -/
def rtTick (c : Config) (disturbance noise_std : ℚ) (model_type : String)
    (g : ℕ → ℚ) (r : RTState) : RTState × Except PyErr Unit :=
  match normalDraw g noise_std r.time_data.length with
  | .error e => (r, .error e)
  | .ok noise =>
    let measurement := r.current_value + noise
    match update c r.pid measurement with
    | (pid', .error e) =>
      (⟨r.current_value, r.velocity, r.time_data, r.output_data, pid'⟩, .error e)
    | (pid', .ok output) =>
      let disturbance_value :=
        if (r.time_data.length : ℚ) * c.sample_time ≥ 5 then disturbance else 0
      let next : Except PyErr (ℚ × ℚ) :=
        if model_type = "second_order" then
          let acceleration := c.omega_n ^ 2 * (output - r.current_value)
            - 2 * c.damping_ratio * c.omega_n * r.velocity
          let vel' := r.velocity + acceleration * c.sample_time
          .ok (r.current_value + vel' * c.sample_time, vel')
        else
          if c.omega_n = 0 then .error .zeroDivision
          else
            let tau := 1 / c.omega_n
            .ok (r.current_value
              + (output - r.current_value) / tau * c.sample_time, r.velocity)
      match next with
      | .error e =>
        (⟨r.current_value, r.velocity, r.time_data, r.output_data, pid'⟩, .error e)
      | .ok (cv2, vel') =>
        let cv3 := cv2 + disturbance_value * c.sample_time
        let cv4 := max 0 (min cv3 400)
        let current_time := (r.time_data.length : ℚ) * c.sample_time
        (⟨cv4, vel', r.time_data ++ [current_time], r.output_data ++ [cv4],
          pid'⟩, .ok ())

/-- `n` timer ticks of the real-time mode; an exception inside a tick
propagates and stops the run. -/
def rtRun (c : Config) (disturbance noise_std : ℚ) (model_type : String)
    (g : ℕ → ℚ) : ℕ → RTState → RTState × Except PyErr Unit
  | 0, r => (r, .ok ())
  | n + 1, r =>
    match rtTick c disturbance noise_std model_type g r with
    | (r', .ok _) => rtRun c disturbance noise_std model_type g n r'
    | (r', .error e) => (r', .error e)

/-- The per-sample settling test of `update_metrics` (`window.py` line 651):
`all(abs(val - setpoint) <= 0.02 * setpoint for val in output[i:])`. -/
def settlingPred (output : List ℚ) (setpoint : ℚ) (i : ℕ) : Bool :=
  (output.drop i).all (fun v => decide (|v - setpoint| ≤ 2 / 100 * setpoint))

/-- The generator search of `update_metrics` (lines 648-652):
`next(i for i in range(len(output)) if all(...))`, `none` for
`StopIteration`. -/
def settling_time_index (output : List ℚ) (setpoint : ℚ) : Option ℕ :=
  (List.range output.length).find? (settlingPred output setpoint)

/-- `settling_time` of `update_metrics` (lines 648-655): the timestamp
`time[settling_time_index]`, or `none` when the search is exhausted.  (The
source indexes `time` unconditionally; the callers always pass lists of
equal length, so the lookup never fails there.) -/
def settling_time (time output : List ℚ) (setpoint : ℚ) : Option ℚ :=
  (settling_time_index output setpoint).bind (fun i => time[i]?)

instance {ε α : Type} [DecidableEq ε] [DecidableEq α] : DecidableEq (Except ε α) :=
  fun x y =>
    match x, y with
    | .ok a, .ok b =>
      if h : a = b then .isTrue (by rw [h])
      else .isFalse (fun hh => h (by cases hh; rfl))
    | .error a, .error b =>
      if h : a = b then .isTrue (by rw [h])
      else .isFalse (fun hh => h (by cases hh; rfl))
    | .ok _, .error _ => .isFalse (fun hh => by cases hh)
    | .error _, .ok _ => .isFalse (fun hh => by cases hh)

/-- Membership of the closed interval between the configured output limits. -/
def inBounds (c : Config) (x : ℚ) : Prop :=
  c.output_limits.1 ≤ x ∧ x ≤ c.output_limits.2

instance (c : Config) (x : ℚ) : Decidable (inBounds c x) :=
  inferInstanceAs (Decidable (_ ∧ _))

/-- A returned output lies between the output limits (vacuous for a raised
exception, which returns nothing). -/
def okBound (c : Config) : Except PyErr ℚ → Prop
  | .ok o => inBounds c o
  | .error _ => True

instance (c : Config) : (e : Except PyErr ℚ) → Decidable (okBound c e)
  | .ok o => inferInstanceAs (Decidable (inBounds c o))
  | .error _ => inferInstanceAs (Decidable True)

/-- The clamp invariant for one `update` call: the integral left in the
state and any returned output lie between the output limits. -/
def stepOK (c : Config) (p : State × Except PyErr ℚ) : Prop :=
  inBounds c p.1.integral ∧ okBound c p.2

instance (c : Config) (p : State × Except PyErr ℚ) : Decidable (stepOK c p) :=
  inferInstanceAs (Decidable (_ ∧ _))

/-- The list of (state left behind, result) pairs of a sequence of `update`
calls with the given measurements. -/
def updateTrace (c : Config) (s : State) :
    List ℚ → List (State × Except PyErr ℚ)
  | [] => []
  | m :: ms => update c s m :: updateTrace c (update c s m).1 ms

theorem pyClamp_bounds {lo hi : ℚ} (x : ℚ) (h : lo ≤ hi) :
    lo ≤ pyClamp lo hi x ∧ pyClamp lo hi x ≤ hi := by
  unfold pyClamp
  split_ifs with h1 h2 <;> constructor <;> linarith

theorem update_stepOK (c : Config)
    (h : c.output_limits.1 ≤ c.output_limits.2) (s : State) (m : ℚ) :
    stepOK c (update c s m) := by
  unfold stepOK update
  rcases s with ⟨i, lo, li, ld⟩
  rcases li with _ | li
  · exact ⟨pyClamp_bounds _ h, pyClamp_bounds _ h⟩
  · rcases ld with _ | ld <;>
      dsimp only <;>
      split_ifs <;>
        first
          | exact ⟨pyClamp_bounds _ h, trivial⟩
          | exact ⟨pyClamp_bounds _ h, pyClamp_bounds _ h⟩

/-- C1.  For every sequence of `update` calls on a regulator whose output
limits satisfy `outputLow ≤ outputHigh`, after each call the internal
integral accumulator and the value returned by `update` both lie within
the closed interval `[outputLow, outputHigh]`. -/
theorem integral_output_clamped (c : Config)
    (h : c.output_limits.1 ≤ c.output_limits.2) (s : State) (ms : List ℚ) :
    ∀ p ∈ updateTrace c s ms, stepOK c p := by
  induction ms generalizing s with
  | nil => intro p hp; simp [updateTrace] at hp
  | cons m ms ih =>
    intro p hp
    rw [updateTrace, List.mem_cons] at hp
    rcases hp with rfl | hp
    · exact update_stepOK c h s m
    · exact ih _ p hp

/-- The configuration of the anti-windup test:
`kp=1, ki=0.1, kd=0, setpoint=200, output_limits=(0,400), sample_time=0.01`
(process-model fields at the source defaults). -/
def c4cfg : Config := ⟨1, 1/10, 0, 200, (0, 400), 1/100, 1, 7/10, 0⟩

/-- Witness for C1: a concrete step of the trace satisfies the clamp
invariant. -/
theorem integral_output_clamped_witness :
    c4cfg.output_limits.1 ≤ c4cfg.output_limits.2 ∧
      stepOK c4cfg (update c4cfg initState 0) :=
  ⟨by decide, integral_output_clamped c4cfg (by decide) initState [0]
    (update c4cfg initState 0) (by rw [updateTrace]; exact List.mem_cons_self _ _)⟩

/-- C3.  The very first call to `update` after `reset()` (or construction,
since `resetState initState = initState`) stores a raw derivative of `0`,
is insensitive to `kd`, and returns the clamped sum of the proportional
and (clamped) integral terms alone — the derivative term is `0`. -/
theorem first_update_no_derivative_kick (c : Config) (s : State) (m : ℚ) :
    (update c (resetState s) m).1.last_derivative = some 0 ∧
    update c (resetState s) m
      = update ⟨c.kp, c.ki, c.kd + 1, c.setpoint, c.output_limits,
          c.sample_time, c.omega_n, c.damping_ratio, c.derivative_filter⟩
          (resetState s) m ∧
    (update c (resetState s) m).2
      = .ok (pyClamp c.output_limits.1 c.output_limits.2
          (c.kp * (c.setpoint - m)
            + pyClamp c.output_limits.1 c.output_limits.2
              (c.ki * (c.setpoint - m) * c.sample_time))) := by
  unfold update resetState
  norm_num

/-- The state of the regulator after `n` calls of `update` with the
constant measurement `0`, from a fresh instance. -/
def c4state : ℕ → State
  | 0 => initState
  | n + 1 => updateSt c4cfg (c4state n) 0

/-- The integral accumulator after `n` such calls. -/
def integralAfter (n : ℕ) : ℚ := (c4state n).integral

theorem c4_clamp_step (q : ℚ) (hq : 0 ≤ q) :
    pyClamp 0 400 (min q 400 + 1 / 5) = min (q + 1 / 5) 400 := by
  unfold pyClamp
  rcases le_total q 400 with hle | hgt
  · rw [min_eq_left hle]
    split_ifs with h1 h2
    · rw [min_eq_right]; linarith
    · linarith
    · rw [min_eq_left]; linarith
  · rw [min_eq_right hgt]
    split_ifs with h1 h2
    · rw [min_eq_right]; linarith
    · linarith
    · exact absurd (by linarith : (400 : ℚ) + 1 / 5 > 400) h1

theorem c4state_succ (n : ℕ) :
    c4state (n + 1)
      = ⟨min (((n : ℚ) + 1) / 5) 400,
          pyClamp 0 400 (200 + min (((n : ℚ) + 1) / 5) 400),
          some 0, some 0⟩ := by
  induction n with
  | zero =>
    show updateSt c4cfg initState 0 = _
    norm_num [updateSt, update, c4cfg, initState, pyClamp]
  | succ n ih =>
    show updateSt c4cfg (c4state (n + 1)) 0 = _
    rw [ih]
    unfold updateSt update
    norm_num [c4cfg]
    have harr : ((n : ℚ) + 1) / 5 + 1 / 5 = ((n : ℚ) + 1 + 1) / 5 := by ring
    have hstep := c4_clamp_step (((n : ℚ) + 1) / 5) (by positivity)
    rw [harr] at hstep
    rw [hstep]
    exact ⟨rfl, rfl⟩

/-- C4.  With `kp=1, ki=0.1, kd=0, setpoint=200, output limits (0,400),
sample time 0.01`, driving `update` from reset state with the constant
measurement `0` gives `integral = min(n/5, 400)` after `n` steps — it
grows by `0.2` per step, reaches exactly `400` at step `2000`, and never
exceeds `400`. -/
theorem antiwindup_saturation :
    (∀ n : ℕ, integralAfter n = min ((n : ℚ) / 5) 400) ∧
    integralAfter 2000 = 400 ∧ (∀ n : ℕ, integralAfter n ≤ 400) := by
  have hmain : ∀ n : ℕ, integralAfter n = min ((n : ℚ) / 5) 400 := by
    intro n
    cases n with
    | zero =>
      show (c4state 0).integral = _
      rw [show c4state 0 = initState from rfl]
      norm_num [initState]
    | succ n =>
      rw [integralAfter, c4state_succ]
      push_cast
      rfl
  refine ⟨hmain, ?_, ?_⟩
  · rw [hmain]; norm_num
  · intro n; rw [hmain]; exact min_le_right _ _

/-- States whose `_last_derivative` attribute exists whenever `_last_input`
is set.  Every state reachable from construction or reset satisfies this:
`update` always writes `_last_derivative` (line 94) together with
`_last_input` (line 95). -/
def derivReady (s : State) : Prop := s.last_input.isSome → s.last_derivative.isSome

instance (s : State) : Decidable (derivReady s) := by
  unfold derivReady; infer_instance

theorem update_total (c : Config) (s : State) (m : ℚ)
    (hdt : c.sample_time ≠ 0) (hs : derivReady s) :
    (∃ o, (update c s m).2 = .ok o) ∧ derivReady (update c s m).1 := by
  unfold update
  rcases s with ⟨i, lo, li, ld⟩
  rcases li with _ | li
  · exact ⟨⟨_, rfl⟩, fun _ => rfl⟩
  · rcases ld with _ | ld
    · exact absurd (hs rfl) (by simp)
    · dsimp only
      split_ifs with h1 h2
      · exact absurd h1 hdt
      · exact ⟨⟨_, rfl⟩, fun _ => rfl⟩
      · exact ⟨⟨_, rfl⟩, fun _ => rfl⟩

theorem simStep_total (c : Config) (g : ℕ → ℚ)
    (st dist nstd : ℚ) (model : String)
    (hdt : c.sample_time ≠ 0) (hn : 0 ≤ nstd)
    (hm : model = "second_order" ∨ (model = "first_order" ∧ c.omega_n ≠ 0))
    (step : ℕ) (cv vel : ℚ) (pid : State) (hpid : derivReady pid) :
    ∃ pid' cv' vel',
      simStep c g st dist nstd model step cv vel pid = (pid', .ok (cv', vel'))
        ∧ derivReady pid' := by
  obtain ⟨z, hz⟩ : ∃ z, normalDraw g nstd step = .ok z := by
    unfold normalDraw
    rw [if_neg (not_lt.mpr hn)]
    split_ifs <;> exact ⟨_, rfl⟩
  obtain ⟨⟨o, ho⟩, hready⟩ := update_total c pid (cv + z) hdt hpid
  rcases hup : update c pid (cv + z) with ⟨pid', r⟩
  rw [hup] at ho hready
  simp only at ho hready
  subst ho
  unfold simStep
  rw [hz]
  dsimp only
  rw [hup]
  dsimp only
  rcases hm with hm | ⟨hm, hω⟩
  · subst hm
    rw [if_pos rfl]
    exact ⟨pid', _, _, rfl, hready⟩
  · subst hm
    rw [if_neg (by decide : ¬("first_order" : String) = "second_order"),
      if_pos rfl]
    unfold firstOrderNext
    rw [if_neg hω]
    exact ⟨pid', _, _, rfl, hready⟩

theorem simLoop_total (c : Config) (g : ℕ → ℚ)
    (st dist nstd : ℚ) (model : String)
    (hdt : c.sample_time ≠ 0) (hn : 0 ≤ nstd)
    (hm : model = "second_order" ∨ (model = "first_order" ∧ c.omega_n ≠ 0)) :
    ∀ (fuel step : ℕ) (cv vel : ℚ) (pid : State), derivReady pid →
      ∃ T V, (simLoop c g st dist nstd model fuel step cv vel pid).2
        = .ok (T, V) := by
  intro fuel
  induction fuel with
  | zero => intro step cv vel pid _; exact ⟨[], [], rfl⟩
  | succ fuel ih =>
    intro step cv vel pid hpid
    obtain ⟨pid', cv', vel', hstep, hready⟩ :=
      simStep_total c g st dist nstd model hdt hn hm step cv vel pid hpid
    obtain ⟨T, V, hrec⟩ := ih (step + 1) cv' vel' pid' hready
    have hpair : simLoop c g st dist nstd model fuel (step + 1) cv' vel' pid'
        = ((simLoop c g st dist nstd model fuel (step + 1) cv' vel' pid').1,
            Except.ok (T, V)) := by
      rw [← hrec]
    refine ⟨(step : ℚ) * c.sample_time :: T, cv' :: V, ?_⟩
    simp only [simLoop]
    rw [hstep]
    dsimp only
    rw [hpair]

/-- C2 (amended).  Once constructed (construction never fails: `pidInit`
is total), every `update` call succeeds provided `sample_time ≠ 0` (on a
state whose `_last_derivative` attribute is present whenever
`_last_input` is), and every `simulate` call succeeds provided in
addition the noise scale is non-negative and the model is
`"second_order"`, or `"first_order"` with `omega_n ≠ 0`. -/
theorem update_simulate_total (c : Config) (s : State) (m : ℚ)
    (st iv ivel dist nstd : ℚ) (model : String) (g : ℕ → ℚ)
    (hdt : c.sample_time ≠ 0) (hs : derivReady s) (hn : 0 ≤ nstd)
    (hm : model = "second_order" ∨ (model = "first_order" ∧ c.omega_n ≠ 0)) :
    (∃ o, (update c s m).2 = .ok o) ∧
      ∃ T V, (simulate c s st iv ivel dist nstd model g).2 = .ok (T, V) := by
  refine ⟨(update_total c s m hdt hs).1, ?_⟩
  unfold simulate
  rw [if_neg hdt]
  exact simLoop_total c g st dist nstd model hdt hn hm _ 0 iv ivel s hs

/-- Witness for C2's amended theorem at a concrete configuration. -/
theorem update_simulate_total_witness :
    (c4cfg.sample_time ≠ 0 ∧ derivReady initState ∧ (0 : ℚ) ≤ 0 ∧
        ("second_order" = "second_order"
          ∨ ("second_order" = "first_order" ∧ c4cfg.omega_n ≠ 0))) ∧
      ((∃ o, (update c4cfg initState 0).2 = .ok o) ∧
        ∃ T V, (simulate c4cfg initState (1/100) 60 0 0 0 "second_order"
          (fun _ => 0)).2 = .ok (T, V)) :=
  ⟨⟨by norm_num [c4cfg], by decide, le_refl 0, Or.inl rfl⟩,
    update_simulate_total c4cfg initState 0 (1/100) 60 0 0 0 "second_order"
      (fun _ => 0) (by norm_num [c4cfg]) (by decide) (le_refl 0) (Or.inl rfl)⟩

/-- The configuration produced by `pidInit` with `sample_time = 0`:
the constructor performs no validation, so construction succeeds. -/
def c2cfg : Config := (pidInit 1 1 1 200 (0, 400) 0 1 (7/10) 0).1

/-- A configuration with `sample_time = 0.01` but `omega_n = 0`, also
accepted without error at construction. -/
def c2cfgω : Config := (pidInit 1 1 1 200 (0, 400) (1/100) 0 (7/10) 0).1

/-- C2 counterexample: constructing with `sample_time = 0` (or
`omega_n = 0`) raises nothing — `pidInit` returns a configuration — and
afterwards calls do fail mid-run: the second `update` call raises
`ZeroDivisionError`, `simulate` raises it when computing `num_steps`, and
with `omega_n = 0` the `"first_order"` model raises it inside the first
simulation step. -/
theorem construction_no_validation_cex :
    pidInit 1 1 1 200 (0, 400) 0 1 (7/10) 0 = (c2cfg, initState) ∧
    (update c2cfg (updateSt c2cfg initState 0) 0).2 = .error .zeroDivision ∧
    (simulate c2cfg initState 10 60 0 0 0 "second_order" (fun _ => 0)).2
      = .error .zeroDivision ∧
    pidInit 1 1 1 200 (0, 400) (1/100) 0 (7/10) 0 = (c2cfgω, initState) ∧
    (simulate c2cfgω initState (1/100) 60 0 0 0 "first_order" (fun _ => 0)).2
      = .error .zeroDivision := by
  refine ⟨rfl, ?_, ?_, rfl, ?_⟩
  · norm_num [update, updateSt, c2cfg, pidInit, initState, pyClamp]
  · norm_num [simulate, c2cfg, pidInit]
  · norm_num [simulate, simLoop, simStep, update, normalDraw, firstOrderNext,
      pyClamp, pyInt, initState, c2cfgω, pidInit, Except.map,
      show ("first_order":String) ≠ "second_order" from by decide]

theorem simLoop_g_irrelevant (c : Config) (st dist : ℚ) (model : String)
    (g₁ g₂ : ℕ → ℚ) :
    ∀ (fuel step : ℕ) (cv vel : ℚ) (pid : State),
      simLoop c g₁ st dist 0 model fuel step cv vel pid
        = simLoop c g₂ st dist 0 model fuel step cv vel pid := by
  intro fuel
  induction fuel with
  | zero => intro step cv vel pid; rfl
  | succ fuel ih =>
    intro step cv vel pid
    have hstep : simStep c g₁ st dist 0 model step cv vel pid
        = simStep c g₂ st dist 0 model step cv vel pid := by
      unfold simStep normalDraw
      norm_num
    rcases hs2 : simStep c g₂ st dist 0 model step cv vel pid with ⟨pid', r⟩
    have hs1 : simStep c g₁ st dist 0 model step cv vel pid = (pid', r) :=
      hstep.trans hs2
    rcases r with e | ⟨cv', vel'⟩
    · simp only [simLoop, hs1, hs2]
    · simp only [simLoop, hs1, hs2, ih]

/-- C5.  With `noise_std = 0` the RNG stream is never consulted (the draw
is exactly the mean `0`): two `simulate` calls with identical
configuration, entry state and arguments produce identical output series
(and identical final controller state), whatever the RNG streams were. -/
theorem simulate_deterministic_no_noise (c : Config) (s : State)
    (st iv ivel dist : ℚ) (model : String) (g₁ g₂ : ℕ → ℚ) :
    simulate c s st iv ivel dist 0 model g₁
      = simulate c s st iv ivel dist 0 model g₂ := by
  unfold simulate
  split_ifs with h
  · rfl
  · exact simLoop_g_irrelevant c st dist model g₁ g₂ _ 0 iv ivel s

theorem simStep_ok_bound (c : Config) (g : ℕ → ℚ) (st dist nstd : ℚ)
    (model : String) (step : ℕ) (cv vel : ℚ) (pid pid' : State)
    (cv' vel' : ℚ)
    (h : simStep c g st dist nstd model step cv vel pid
      = (pid', .ok (cv', vel'))) :
    0 ≤ cv' ∧ cv' ≤ max 0 (max c.output_limits.1 c.output_limits.2) := by
  unfold simStep at h
  rcases hz : normalDraw g nstd step with e | z
  · rw [hz] at h; exact absurd h (by simp)
  · rw [hz] at h
    dsimp only at h
    rcases hup : update c pid (cv + z) with ⟨pidU, r⟩
    rw [hup] at h
    rcases r with e | o
    · dsimp only at h; exact absurd h (by simp)
    · dsimp only at h
      rcases hnext : (if model = "second_order"
          then Except.ok (secondOrderNext c cv vel o)
          else if model = "first_order"
            then (firstOrderNext c cv o).map (fun cv2 => (cv2, vel))
            else Except.error PyErr.valueError) with e | ⟨cv2, vel2⟩
      · rw [hnext] at h; exact absurd h (by simp)
      · rw [hnext] at h
        dsimp only at h
        simp only [Prod.mk.injEq, Except.ok.injEq] at h
        obtain ⟨-, hcv, -⟩ := h
        subst hcv
        exact ⟨le_max_left _ _, max_le_max le_rfl (min_le_right _ _)⟩

theorem simLoop_values_bounded (c : Config) (g : ℕ → ℚ) (st dist nstd : ℚ)
    (model : String) :
    ∀ (fuel step : ℕ) (cv vel : ℚ) (pid : State) (T V : List ℚ),
      (simLoop c g st dist nstd model fuel step cv vel pid).2 = .ok (T, V) →
      ∀ v ∈ V, 0 ≤ v ∧ v ≤ max 0 (max c.output_limits.1 c.output_limits.2) := by
  intro fuel
  induction fuel with
  | zero =>
    intro step cv vel pid T V h v hv
    simp only [simLoop, Except.ok.injEq, Prod.mk.injEq] at h
    obtain ⟨-, hV⟩ := h
    rw [← hV] at hv
    simp at hv
  | succ fuel ih =>
    intro step cv vel pid T V h v hv
    rw [simLoop] at h
    rcases hs : simStep c g st dist nstd model step cv vel pid with ⟨pid', r⟩
    rw [hs] at h
    rcases r with e | ⟨cv', vel'⟩
    · dsimp only at h; exact absurd h (by simp)
    · dsimp only at h
      rcases hr : simLoop c g st dist nstd model fuel (step + 1) cv' vel' pid'
        with ⟨pidF, r2⟩
      rw [hr] at h
      rcases r2 with e | ⟨ts, vs⟩
      · dsimp only at h; exact absurd h (by simp)
      · dsimp only at h
        simp only [Except.ok.injEq, Prod.mk.injEq] at h
        obtain ⟨-, hV⟩ := h
        rw [← hV] at hv
        rcases List.mem_cons.mp hv with rfl | hv'
        · exact simStep_ok_bound c g st dist nstd model step cv vel pid
            pid' v vel' hs
        · exact ih (step + 1) cv' vel' pid' ts vs (by rw [hr]) v hv'

/-- C6 (amended).  Every sample of a `simulate` run lies within
`[0, max(outputLow, outputHigh)]`: the lower physical bound is the
literal `0`, but the upper bound is `max(self.output_limits)`
(line 171) — it tracks the regulator's output limits instead of being an
independent physical bound. -/
theorem simulate_values_in_physical_range (c : Config) (s : State)
    (st iv ivel dist nstd : ℚ) (model : String) (g : ℕ → ℚ) (T V : List ℚ)
    (hok : (simulate c s st iv ivel dist nstd model g).2 = .ok (T, V)) :
    ∀ v ∈ V, 0 ≤ v ∧ v ≤ max 0 (max c.output_limits.1 c.output_limits.2) := by
  unfold simulate at hok
  by_cases h : c.sample_time = 0
  · rw [if_pos h] at hok; exact absurd hok (by simp)
  · rw [if_neg h] at hok
    exact simLoop_values_bounded c g st dist nstd model _ 0 iv ivel s T V hok

/-- A run with all gains zero and output limits `(0, 400)`. -/
def c6cfgA : Config := ⟨0, 0, 0, 0, (0, 400), 1/2, 1, 7/10, 0⟩

/-- The same configuration except that the output limits are `(0, 500)`. -/
def c6cfgB : Config := ⟨0, 0, 0, 0, (0, 500), 1/2, 1, 7/10, 0⟩

/-- Witness for C6's amended theorem on a concrete run. -/
theorem simulate_values_in_physical_range_witness :
    ((simulate c6cfgA initState (1/2) 1000 0 0 0 "first_order"
        (fun _ => 0)).2 = .ok ([0], [400]) ∧ (400 : ℚ) ∈ [(400 : ℚ)]) ∧
      (0 ≤ (400 : ℚ) ∧
        (400 : ℚ) ≤ max 0 (max c6cfgA.output_limits.1 c6cfgA.output_limits.2)) :=
  ⟨⟨by norm_num [simulate, simLoop, simStep, update, normalDraw,
      firstOrderNext, pyClamp, pyInt, initState, c6cfgA, Except.map,
      show ("first_order" : String) ≠ "second_order" from by decide],
    by simp⟩,
    simulate_values_in_physical_range c6cfgA initState (1/2) 1000 0 0 0
      "first_order" (fun _ => 0) [0] [400]
      (by norm_num [simulate, simLoop, simStep, update, normalDraw,
        firstOrderNext, pyClamp, pyInt, initState, c6cfgA, Except.map,
        show ("first_order" : String) ≠ "second_order" from by decide])
      400 (by simp)⟩

/-- C6 counterexample: two configurations identical except for their
output limits (all gains zero, so the regulator output is `0` in both
runs); the end-of-step clamp produces the sample `400` under limits
`(0, 400)` and `500` under limits `(0, 500)`: the clamp's upper bound is
`max(output_limits)`, not a physical bound independent of the output
limits, and the sample `500` escapes `[0, 400]`. -/
theorem physical_clamp_depends_on_limits_cex :
    (simulate c6cfgA initState (1/2) 1000 0 0 0 "first_order"
      (fun _ => 0)).2 = .ok ([0], [400]) ∧
    (simulate c6cfgB initState (1/2) 1000 0 0 0 "first_order"
      (fun _ => 0)).2 = .ok ([0], [500]) ∧
    c6cfgA = ⟨c6cfgB.kp, c6cfgB.ki, c6cfgB.kd, c6cfgB.setpoint, (0, 400),
      c6cfgB.sample_time, c6cfgB.omega_n, c6cfgB.damping_ratio,
      c6cfgB.derivative_filter⟩ ∧
    ¬ ((500 : ℚ) ≤ 400) := by
  refine ⟨?_, ?_, rfl, by norm_num⟩ <;>
    norm_num [simulate, simLoop, simStep, update, normalDraw, firstOrderNext,
      pyClamp, pyInt, initState, c6cfgA, c6cfgB, Except.map,
      show ("first_order" : String) ≠ "second_order" from by decide]

theorem update_fst_lastInput_isSome (c : Config) (s : State) (m : ℚ)
    (h : s.last_input.isSome) : (update c s m).1.last_input.isSome := by
  unfold update
  rcases s with ⟨i, lo, li, ld⟩
  rcases li with _ | li
  · simp at h
  · rcases ld with _ | ld <;> dsimp only <;> split_ifs <;> rfl

theorem update_ok_lastInput (c : Config) (s : State) (m o : ℚ)
    (h : (update c s m).2 = .ok o) : (update c s m).1.last_input = some m := by
  unfold update at h ⊢
  rcases s with ⟨i, lo, li, ld⟩
  rcases li with _ | li
  · rfl
  · rcases ld with _ | ld <;> dsimp only at h ⊢ <;> split_ifs at h ⊢ <;> rfl

theorem simStep_fst_lastInput_isSome (c : Config) (g : ℕ → ℚ)
    (st dist nstd : ℚ) (model : String) (step : ℕ) (cv vel : ℚ) (pid : State)
    (h : pid.last_input.isSome) :
    (simStep c g st dist nstd model step cv vel pid).1.last_input.isSome := by
  unfold simStep
  rcases hz : normalDraw g nstd step with e | z
  · exact h
  · dsimp only
    have hup := update_fst_lastInput_isSome c pid (cv + z) h
    rcases hu : update c pid (cv + z) with ⟨pid', r⟩
    rw [hu] at hup
    rcases r with e | o
    · exact hup
    · dsimp only
      rcases (if model = "second_order"
          then Except.ok (secondOrderNext c cv vel o)
          else if model = "first_order"
            then (firstOrderNext c cv o).map (fun cv2 => (cv2, vel))
            else Except.error PyErr.valueError) with e | ⟨cv2, vel2⟩
      · exact hup
      · exact hup

theorem simStep_ok_lastInput (c : Config) (g : ℕ → ℚ) (st dist nstd : ℚ)
    (model : String) (step : ℕ) (cv vel : ℚ) (pid pid' : State)
    (cv' vel' : ℚ)
    (h : simStep c g st dist nstd model step cv vel pid
      = (pid', .ok (cv', vel'))) :
    pid'.last_input.isSome := by
  unfold simStep at h
  rcases hz : normalDraw g nstd step with e | z
  · rw [hz] at h; exact absurd h (by simp)
  · rw [hz] at h
    dsimp only at h
    rcases hu : update c pid (cv + z) with ⟨pidU, r⟩
    rw [hu] at h
    rcases r with e | o
    · dsimp only at h; exact absurd h (by simp)
    · dsimp only at h
      have hin : pidU.last_input = some (cv + z) := by
        have := update_ok_lastInput c pid (cv + z) o (by rw [hu])
        rw [hu] at this
        exact this
      rcases hnext : (if model = "second_order"
          then Except.ok (secondOrderNext c cv vel o)
          else if model = "first_order"
            then (firstOrderNext c cv o).map (fun cv2 => (cv2, vel))
            else Except.error PyErr.valueError) with e | ⟨cv2, vel2⟩
      · rw [hnext] at h; exact absurd h (by simp)
      · rw [hnext] at h
        dsimp only at h
        simp only [Prod.mk.injEq] at h
        rw [← h.1, hin]
        rfl

theorem simLoop_preserves_lastInput (c : Config) (g : ℕ → ℚ)
    (st dist nstd : ℚ) (model : String) :
    ∀ (fuel step : ℕ) (cv vel : ℚ) (pid : State), pid.last_input.isSome →
      (simLoop c g st dist nstd model fuel step cv vel pid).1.last_input.isSome := by
  intro fuel
  induction fuel with
  | zero => intro step cv vel pid h; exact h
  | succ fuel ih =>
    intro step cv vel pid h
    rw [simLoop]
    have hstep := simStep_fst_lastInput_isSome c g st dist nstd model
      step cv vel pid h
    rcases hs : simStep c g st dist nstd model step cv vel pid with ⟨pid', r⟩
    rw [hs] at hstep
    rcases r with e | ⟨cv', vel'⟩
    · exact hstep
    · dsimp only
      have hrec := ih (step + 1) cv' vel' pid' hstep
      rcases hr : simLoop c g st dist nstd model fuel (step + 1) cv' vel' pid'
        with ⟨pidF, r2⟩
      rw [hr] at hrec
      rcases r2 with e | ⟨ts, vs⟩
      · exact hrec
      · exact hrec

theorem simLoop_ok_final_lastInput (c : Config) (g : ℕ → ℚ)
    (st dist nstd : ℚ) (model : String)
    (fuel step : ℕ) (cv vel : ℚ) (pid : State) (T V : List ℚ)
    (h : (simLoop c g st dist nstd model fuel step cv vel pid).2 = .ok (T, V))
    (hne : V ≠ []) :
    (simLoop c g st dist nstd model fuel step cv vel pid).1.last_input.isSome := by
  cases fuel with
  | zero =>
    simp only [simLoop, Except.ok.injEq, Prod.mk.injEq] at h
    exact absurd h.2 (fun hV => hne hV.symm)
  | succ fuel =>
    rw [simLoop] at h ⊢
    rcases hs : simStep c g st dist nstd model step cv vel pid with ⟨pid', r⟩
    rw [hs] at h
    rcases r with e | ⟨cv', vel'⟩
    · simp at h
    · dsimp only at h ⊢
      have hin := simStep_ok_lastInput c g st dist nstd model step cv vel pid
        pid' cv' vel' hs
      have hrec := simLoop_preserves_lastInput c g st dist nstd model
        fuel (step + 1) cv' vel' pid' hin
      rcases hr : simLoop c g st dist nstd model fuel (step + 1) cv' vel' pid'
        with ⟨pidF, r2⟩
      rw [hr] at hrec
      rcases r2 with e | ⟨ts, vs⟩
      · exact hrec
      · exact hrec

/-- C8 (amended).  Batch `simulate` is not state-preserving: it threads
the regulator through its `update` calls, so any run from a fresh or
reset regulator (`last_input = none`) that completes at least one step
leaves the regulator in a different state (its `_last_input` is now
set). -/
theorem simulate_changes_state (c : Config) (s : State)
    (st iv ivel dist nstd : ℚ) (model : String) (g : ℕ → ℚ) (T V : List ℚ)
    (h0 : s.last_input = none)
    (hok : (simulate c s st iv ivel dist nstd model g).2 = .ok (T, V))
    (hne : V ≠ []) :
    (simulate c s st iv ivel dist nstd model g).1 ≠ s := by
  unfold simulate at hok ⊢
  by_cases h : c.sample_time = 0
  · rw [if_pos h] at hok; exact absurd hok (by simp)
  · rw [if_neg h] at hok ⊢
    intro heq
    have hsome := simLoop_ok_final_lastInput c g st dist nstd model
      _ 0 iv ivel s T V hok hne
    rw [heq, h0] at hsome
    simp at hsome

/-- C8 counterexample: a one-step `simulate` run from the reset state
(with the anti-windup test gains) leaves the regulator with
`integral = 7/50` and `last_input = some 60`: the internal state is not
restored to its value before the call. -/
theorem simulate_mutates_state_cex :
    (simulate c4cfg initState (1/100) 60 0 0 0 "second_order"
      (fun _ => 0)).1 = ⟨7/50, 7007/50, some 60, some 0⟩ ∧
    initState = ⟨0, 0, none, none⟩ ∧
    (simulate c4cfg initState (1/100) 60 0 0 0 "second_order"
      (fun _ => 0)).1 ≠ initState := by
  have h : (simulate c4cfg initState (1/100) 60 0 0 0 "second_order"
      (fun _ => 0)).1 = ⟨7/50, 7007/50, some 60, some 0⟩ := by
    norm_num [simulate, simLoop, simStep, update, normalDraw, secondOrderNext,
      pyClamp, pyInt, initState, c4cfg]
  refine ⟨h, rfl, ?_⟩
  rw [h]
  norm_num [initState, State.mk.injEq]

/-- Witness for C8's amended theorem at a concrete one-step run. -/
theorem simulate_changes_state_witness :
    (initState.last_input = none ∧
      (simulate c4cfg initState (1/100) 60 0 0 0 "second_order"
        (fun _ => 0)).2 = .ok ([0], [30004007/500000]) ∧
      ([(30004007 : ℚ)/500000] : List ℚ) ≠ []) ∧
    (simulate c4cfg initState (1/100) 60 0 0 0 "second_order"
      (fun _ => 0)).1 ≠ initState :=
  ⟨⟨rfl,
    by norm_num [simulate, simLoop, simStep, update, normalDraw,
      secondOrderNext, pyClamp, pyInt, initState, c4cfg],
    by simp⟩,
    simulate_changes_state c4cfg initState (1/100) 60 0 0 0 "second_order"
      (fun _ => 0) [0] [30004007/500000] rfl
      (by norm_num [simulate, simLoop, simStep, update, normalDraw,
        secondOrderNext, pyClamp, pyInt, initState, c4cfg])
      (by simp)⟩

theorem rtTick_matches_simStep (c : Config) (dist nstd : ℚ) (model : String)
    (g : ℕ → ℚ) (cv vel : ℚ) (pid pid' : State) (ts vs : List ℚ)
    (cv' vel' : ℚ)
    (h400 : max c.output_limits.1 c.output_limits.2 = 400)
    (hm : model = "second_order" ∨ model = "first_order")
    (hstep : simStep c g 10 dist nstd model ts.length cv vel pid
      = (pid', .ok (cv', vel'))) :
    rtTick c dist nstd model g ⟨cv, vel, ts, vs, pid⟩
      = (⟨cv', vel', ts ++ [(ts.length : ℚ) * c.sample_time], vs ++ [cv'],
          pid'⟩, .ok ()) := by
  unfold simStep at hstep
  unfold rtTick
  dsimp only
  set D := normalDraw g nstd ts.length with hD
  clear_value D
  rcases D with e | z
  · simp at hstep
  · dsimp only at hstep ⊢
    set U := update c pid (cv + z) with hU
    clear_value U
    rcases U with ⟨pidU, r⟩
    rcases r with e | o
    · simp at hstep
    · dsimp only at hstep ⊢
      rw [show (10 : ℚ) / 2 = 5 by norm_num, h400] at hstep
      rcases hm with hm | hm
      · subst hm
        rw [if_pos rfl] at hstep ⊢
        unfold secondOrderNext at hstep
        dsimp only at hstep ⊢
        simp only [Prod.mk.injEq, Except.ok.injEq] at hstep
        obtain ⟨hpid, hcv, hvel⟩ := hstep
        rw [hpid, hcv, hvel]
      · subst hm
        rw [if_neg (by decide : ¬("first_order" : String) = "second_order"),
          if_pos rfl] at hstep
        rw [if_neg (by decide : ¬("first_order" : String) = "second_order")]
        unfold firstOrderNext at hstep
        by_cases hω : c.omega_n = 0
        · rw [if_pos hω] at hstep; simp [Except.map] at hstep
        · rw [if_neg hω] at hstep ⊢
          dsimp only [Except.map] at hstep ⊢
          simp only [Prod.mk.injEq, Except.ok.injEq] at hstep
          obtain ⟨hpid, hcv, hvel⟩ := hstep
          rw [hpid, hcv, hvel]

theorem rtRun_matches_simLoop (c : Config) (dist nstd : ℚ) (model : String)
    (g : ℕ → ℚ)
    (h400 : max c.output_limits.1 c.output_limits.2 = 400)
    (hm : model = "second_order" ∨ model = "first_order") :
    ∀ (fuel : ℕ) (cv vel : ℚ) (pid pidF : State) (ts vs T V : List ℚ),
      simLoop c g 10 dist nstd model fuel ts.length cv vel pid
        = (pidF, .ok (T, V)) →
      ∃ cvF velF,
        rtRun c dist nstd model g fuel ⟨cv, vel, ts, vs, pid⟩
          = (⟨cvF, velF, ts ++ T, vs ++ V, pidF⟩, .ok ()) := by
  intro fuel
  induction fuel with
  | zero =>
    intro cv vel pid pidF ts vs T V h
    simp only [simLoop, Prod.mk.injEq, Except.ok.injEq] at h
    obtain ⟨hpid, hT, hV⟩ := h
    subst hpid; subst hT; subst hV
    exact ⟨cv, vel, by simp [rtRun]⟩
  | succ fuel ih =>
    intro cv vel pid pidF ts vs T V h
    rw [simLoop] at h
    rcases hs : simStep c g 10 dist nstd model ts.length cv vel pid
      with ⟨pid', r⟩
    rw [hs] at h
    rcases r with e | ⟨cv', vel'⟩
    · simp at h
    · dsimp only at h
      rcases hr : simLoop c g 10 dist nstd model fuel
          (ts.length + 1) cv' vel' pid' with ⟨pidF2, r2⟩
      rw [hr] at h
      rcases r2 with e | ⟨ts2, vs2⟩
      · simp at h
      · dsimp only at h
        simp only [Prod.mk.injEq, Except.ok.injEq] at h
        obtain ⟨hpidF, hT, hV⟩ := h
        subst hpidF; subst hT; subst hV
        have htick := rtTick_matches_simStep c dist nstd model g cv vel pid
          pid' ts vs cv' vel' h400 hm hs
        have hlen : (ts ++ [(ts.length : ℚ) * c.sample_time]).length
            = ts.length + 1 := by simp
        obtain ⟨cvF, velF, hrun⟩ := ih cv' vel' pid' pidF2
          (ts ++ [(ts.length : ℚ) * c.sample_time]) (vs ++ [cv']) ts2 vs2
          (by rw [hlen]; exact hr)
        refine ⟨cvF, velF, ?_⟩
        rw [rtRun, htick]
        dsimp only
        rw [hrun]
        simp

/-- C7 (amended).  The real-time mode reproduces a batch `simulate` run
bit-for-bit exactly under the conditions the GUI establishes: batch
duration 10 s (so both switch the disturbance on at t ≥ 5 s),
`max(output_limits) = 400` (matching the hardcoded real-time clamp), a
model string that is one of the two recognised ones, start at process
value 60 and velocity 0 with empty data lists, the same regulator entry
state and the same noise stream.  Then the tick-by-tick run over
`num_steps` ticks ends with exactly the batch time and value series and
the same regulator state. -/
theorem realtime_matches_batch_ten_seconds (c : Config) (s : State)
    (dist nstd : ℚ) (model : String) (g : ℕ → ℚ) (T V : List ℚ)
    (h400 : max c.output_limits.1 c.output_limits.2 = 400)
    (hm : model = "second_order" ∨ model = "first_order")
    (hok : (simulate c s 10 60 0 dist nstd model g).2 = .ok (T, V)) :
    ∃ cvF velF,
      rtRun c dist nstd model g ((pyInt (10 / c.sample_time)).toNat)
        ⟨60, 0, [], [], s⟩
        = (⟨cvF, velF, T, V, (simulate c s 10 60 0 dist nstd model g).1⟩,
          .ok ()) := by
  unfold simulate at hok ⊢
  by_cases h : c.sample_time = 0
  · rw [if_pos h] at hok; exact absurd hok (by simp)
  · rw [if_neg h] at hok ⊢
    have hpair : simLoop c g 10 dist nstd model
        ((pyInt (10 / c.sample_time)).toNat) 0 60 0 s
        = ((simLoop c g 10 dist nstd model
            ((pyInt (10 / c.sample_time)).toNat) 0 60 0 s).1,
          Except.ok (T, V)) := by
      rw [← hok]
    obtain ⟨cvF, velF, hrun⟩ := rtRun_matches_simLoop c dist nstd model g
      h400 hm ((pyInt (10 / c.sample_time)).toNat) 60 0 s _ [] [] T V hpair
    exact ⟨cvF, velF, by simpa using hrun⟩

/-- The configuration of the C7 witness run: sample time 5 s, so a 10 s
batch run is 2 steps. -/
def c7wcfg : Config := ⟨0, 0, 0, 0, (0, 400), 5, 1, 1, 0⟩

/-- Witness for C7's amended theorem at a concrete 2-step run. -/
theorem realtime_matches_batch_witness :
    (max c7wcfg.output_limits.1 c7wcfg.output_limits.2 = 400 ∧
      (simulate c7wcfg initState 10 60 0 0 0 "first_order" (fun _ => 0)).2
        = .ok ([0, 5], [0, 0])) ∧
    ∃ cvF velF,
      rtRun c7wcfg 0 0 "first_order" (fun _ => 0)
        ((pyInt (10 / c7wcfg.sample_time)).toNat) ⟨60, 0, [], [], initState⟩
        = (⟨cvF, velF, [0, 5], [0, 0],
            (simulate c7wcfg initState 10 60 0 0 0 "first_order"
              (fun _ => 0)).1⟩, .ok ()) :=
  ⟨⟨by norm_num [c7wcfg],
    by norm_num [simulate, simLoop, simStep, update, normalDraw,
      firstOrderNext, pyClamp, pyInt, initState, c7wcfg, Except.map,
      show ("first_order" : String) ≠ "second_order" from by decide]⟩,
    realtime_matches_batch_ten_seconds c7wcfg initState 0 0 "first_order"
      (fun _ => 0) [0, 5] [0, 0] (by norm_num [c7wcfg]) (Or.inr rfl)
      (by norm_num [simulate, simLoop, simStep, update, normalDraw,
        firstOrderNext, pyClamp, pyInt, initState, c7wcfg, Except.map,
        show ("first_order" : String) ≠ "second_order" from by decide])⟩

/-- The configuration of the C7 counterexample: sample time 1 s. -/
def c7xcfg : Config := ⟨0, 0, 0, 0, (0, 400), 1, 1, 7/10, 0⟩

/-- C7 counterexample: with sample time 1 s, a batch duration of 2 s
(2 steps, so the same number of steps as 2 real-time ticks), zero noise
and disturbance 100, batch `simulate` switches the disturbance on at its
midpoint (t ≥ 1 s) while the real-time mode keeps it off until the
hardcoded t ≥ 5 s: the trajectories differ at the second sample
(100 vs 0). -/
theorem realtime_batch_mismatch_cex :
    (pyInt (2 / c7xcfg.sample_time)).toNat = 2 ∧
    (simulate c7xcfg initState 2 60 0 100 0 "first_order" (fun _ => 0)).2
      = .ok ([0, 1], [0, 100]) ∧
    (rtRun c7xcfg 100 0 "first_order" (fun _ => 0) 2
        ⟨60, 0, [], [], initState⟩).1.output_data = [0, 0] ∧
    ([(0 : ℚ), 100] ≠ [0, 0]) := by
  refine ⟨?_, ?_, ?_, by norm_num⟩
  · norm_num [c7xcfg, pyInt]
    decide
  · norm_num [simulate, simLoop, simStep, update, normalDraw, firstOrderNext,
      pyClamp, pyInt, initState, c7xcfg, Except.map,
      show ("first_order" : String) ≠ "second_order" from by decide]
  · norm_num [rtRun, rtTick, update, normalDraw, pyClamp, initState, c7xcfg,
      show ("first_order" : String) ≠ "second_order" from by decide]

/-- C10.  In the `"first_order"` model the time constant is not an
independent parameter: the step is `cv + (output - cv) / tau * dt` with
`tau = 1 / omega_n`, so for every `omega_n > 0` the step equals
`cv + (output - cv) * omega_n * dt`, and it is fully determined by the
`omega_n` and `sample_time` fields of the configuration. -/
theorem first_order_tau_from_omega (c : Config) (cv output : ℚ)
    (hω : 0 < c.omega_n) :
    firstOrderNext c cv output
      = .ok (cv + (output - cv) * c.omega_n * c.sample_time) ∧
    ∀ c' : Config, c'.omega_n = c.omega_n → c'.sample_time = c.sample_time →
      firstOrderNext c' cv output = firstOrderNext c cv output := by
  constructor
  · unfold firstOrderNext
    rw [if_neg (ne_of_gt hω)]
    dsimp only
    rw [one_div, div_inv_eq_mul]
  · intro c' h1 h2
    unfold firstOrderNext
    rw [h1, h2]

/-- Witness for C10 at a concrete configuration and step. -/
theorem first_order_tau_from_omega_witness :
    (0 : ℚ) < c7wcfg.omega_n ∧
      (firstOrderNext c7wcfg 60 0
        = .ok (60 + (0 - 60) * c7wcfg.omega_n * c7wcfg.sample_time) ∧
      ∀ c' : Config, c'.omega_n = c7wcfg.omega_n →
        c'.sample_time = c7wcfg.sample_time →
        firstOrderNext c' 60 0 = firstOrderNext c7wcfg 60 0) :=
  ⟨by norm_num [c7wcfg],
    first_order_tau_from_omega c7wcfg 60 0 (by norm_num [c7wcfg])⟩

/-- The tolerance test on one sample, in the spec's words:
`|value - setpoint| ≤ 0.02 * setpoint`. -/
def tolOK (setpoint v : ℚ) : Prop := |v - setpoint| ≤ 2 / 100 * setpoint

instance (setpoint v : ℚ) : Decidable (tolOK setpoint v) := by
  unfold tolOK; infer_instance

/-- The spec-side settling condition at index `i`: every sample from `i`
to the end of the series lies within tolerance of the setpoint. -/
def SettlesFrom (output : List ℚ) (setpoint : ℚ) (i : ℕ) : Prop :=
  ∀ (j : ℕ) (hj : j < output.length), i ≤ j → tolOK setpoint (output.get ⟨j, hj⟩)

/-- The spec-side characterisation of `settling_time`: it returns the
timestamp of the earliest index whose whole suffix is within tolerance,
and nothing when no index of the series has that property. -/
def SettlingCorrect (time output : List ℚ) (setpoint : ℚ) : Prop :=
  (∀ t, settling_time time output setpoint = some t ↔
    ∃ i, ∃ hi : i < time.length, SettlesFrom output setpoint i ∧
      (∀ k, k < i → ¬ SettlesFrom output setpoint k) ∧ t = time.get ⟨i, hi⟩) ∧
  (settling_time time output setpoint = none ↔
    ∀ i, i < output.length → ¬ SettlesFrom output setpoint i)

theorem find?_range'_some {p : ℕ → Bool} :
    ∀ (n s i : ℕ), (List.range' s n).find? p = some i →
      p i = true ∧ s ≤ i ∧ i < s + n ∧ ∀ j, s ≤ j → j < i → p j = false := by
  intro n
  induction n with
  | zero => intro s i h; simp at h
  | succ n ih =>
    intro s i h
    rw [List.range'_succ] at h
    by_cases hp : p s
    · rw [List.find?_cons_of_pos _ hp] at h
      injection h with h
      subst h
      exact ⟨hp, le_refl s, by omega, fun j h1 h2 => absurd h1 (by omega)⟩
    · rw [List.find?_cons_of_neg _ hp] at h
      obtain ⟨h1, h2, h3, h4⟩ := ih (s + 1) i h
      refine ⟨h1, by omega, by omega, ?_⟩
      intro j hj hji
      rcases Nat.eq_or_lt_of_le hj with rfl | hlt
      · simpa using hp
      · exact h4 j (by omega) hji

theorem find?_range'_of_minimal {p : ℕ → Bool} :
    ∀ (n s i : ℕ), s ≤ i → i < s + n → p i = true →
      (∀ j, s ≤ j → j < i → p j = false) →
      (List.range' s n).find? p = some i := by
  intro n
  induction n with
  | zero => intro s i h1 h2 _ _; omega
  | succ n ih =>
    intro s i h1 h2 h3 h4
    rw [List.range'_succ]
    rcases Nat.eq_or_lt_of_le h1 with rfl | hlt
    · rw [List.find?_cons_of_pos _ h3]
    · rw [List.find?_cons_of_neg _ (by simp [h4 s (le_refl s) hlt])]
      exact ih (s + 1) i (by omega) (by omega) h3
        (fun j hj hji => h4 j (by omega) hji)

theorem settlingPred_iff (output : List ℚ) (sp : ℚ) (i : ℕ) :
    settlingPred output sp i = true ↔ SettlesFrom output sp i := by
  unfold settlingPred SettlesFrom tolOK
  rw [List.all_eq_true]
  constructor
  · intro h j hj hij
    have hjlt : j - i < (output.drop i).length := by
      rw [List.length_drop]; omega
    have hmem : (output.drop i).get ⟨j - i, hjlt⟩ ∈ output.drop i :=
      List.get_mem _ _ _
    have hh := h _ hmem
    rw [List.get_eq_getElem, List.getElem_drop] at hh
    have hidx : i + (j - i) = j := by omega
    simp only [hidx] at hh
    rw [List.get_eq_getElem]
    exact of_decide_eq_true hh
  · intro h v hv
    obtain ⟨k, hk, rfl⟩ := List.mem_iff_getElem.mp hv
    rw [List.getElem_drop]
    have hik : i + k < output.length := by
      rw [List.length_drop] at hk; omega
    refine decide_eq_true ?_
    have hj := h (i + k) hik (by omega)
    rw [List.get_eq_getElem] at hj
    exact hj

/-- C9.  For every pair of equally long time/value series (the callers of
`update_metrics` always pass such) with a non-empty value series,
`settling_time` returns the timestamp of the earliest index `i` such that
every sample from `i` to the end satisfies
`|value - setpoint| ≤ 0.02 * setpoint`, and `none` when no index of the
series has that property. -/
theorem settling_time_correct (time output : List ℚ) (sp : ℚ)
    (hlen : time.length = output.length) (_hne : output ≠ []) :
    SettlingCorrect time output sp := by
  constructor
  · intro t
    constructor
    · intro h
      unfold settling_time at h
      rcases hidx : settling_time_index output sp with _ | i
      · rw [hidx] at h; simp at h
      · rw [hidx, Option.some_bind] at h
        unfold settling_time_index at hidx
        rw [List.range_eq_range'] at hidx
        obtain ⟨hp, -, hlt, hmin⟩ := find?_range'_some _ _ _ hidx
        have hit : i < time.length := by omega
        refine ⟨i, hit, (settlingPred_iff output sp i).mp hp, ?_, ?_⟩
        · intro k hk
          rw [← settlingPred_iff]
          simp [hmin k (Nat.zero_le k) hk]
        · rw [List.getElem?_eq_getElem hit] at h
          injection h with h
          rw [← h, List.get_eq_getElem]
    · rintro ⟨i, hi, hsett, hmin, rfl⟩
      unfold settling_time settling_time_index
      rw [List.range_eq_range']
      have hio : i < output.length := hlen ▸ hi
      rw [find?_range'_of_minimal _ 0 i (Nat.zero_le i) (by omega)
        ((settlingPred_iff output sp i).mpr hsett)
        (fun j _ hji => by
          have hj := hmin j hji
          rw [← settlingPred_iff] at hj
          simpa using hj)]
      rw [Option.some_bind, List.getElem?_eq_getElem hi, List.get_eq_getElem]
  · constructor
    · intro h i hio hsett
      unfold settling_time at h
      rcases hidx : settling_time_index output sp with _ | j
      · unfold settling_time_index at hidx
        rw [List.find?_eq_none] at hidx
        exact hidx i (List.mem_range.mpr hio)
          ((settlingPred_iff output sp i).mpr hsett)
      · rw [hidx, Option.some_bind] at h
        unfold settling_time_index at hidx
        rw [List.range_eq_range'] at hidx
        obtain ⟨-, -, hlt, -⟩ := find?_range'_some _ _ _ hidx
        have hjt : j < time.length := by omega
        rw [List.getElem?_eq_getElem hjt] at h
        simp at h
    · intro h
      unfold settling_time settling_time_index
      rw [List.range_eq_range']
      have hnone : (List.range' 0 output.length).find?
          (settlingPred output sp) = none := by
        rw [List.find?_eq_none]
        intro x hx hpx
        rw [List.mem_range'_1] at hx
        exact h x (by omega) ((settlingPred_iff output sp x).mp hpx)
      rw [hnone, Option.none_bind]

/-- Witness for C9 on a concrete series. -/
theorem settling_time_correct_witness :
    (([(0 : ℚ), 1].length = [(100 : ℚ), 100].length) ∧
        [(100 : ℚ), 100] ≠ []) ∧
      SettlingCorrect [0, 1] [100, 100] 100 :=
  ⟨⟨rfl, by simp⟩,
    settling_time_correct [0, 1] [100, 100] 100 rfl (by simp)⟩

end PID
